import Mathlib

/-!
Shallow embedding of the transfer core of the `xdcc-cli` repository
(packages `xdcc`, `cmd`), together with theorems settling the frozen
claims about its specification.

Conventions: Go strings are embedded as `List Char` (Go iterates runes;
`Char` is a unicode scalar).  Go `int` is embedded as `Int` (64-bit range
checks appear where the source checks them, i.e. inside `strconv.Atoi`).
Fallible Go functions returning `(T, error)` become `Except String T`.
A Go panic (out-of-range index) is `Option.none` on the embedded result.
-/

deriving instance DecidableEq for Except

namespace XdccCli

/-! ## String utilities (Go `strings` / `strconv`, as used by `xdcc.go`) -/

/-- Characters that Go's `unicode.IsSpace` reports as white space; this is
the separator set of `strings.Fields` and the cut set of `strings.TrimSpace`. -/
def isSpaceChar (c : Char) : Bool :=
  c = ' ' || c = '\t' || c = '\n' || c = '\x0b' || c = '\x0c' || c = '\r' ||
  c = '\x85' || c = '\xa0' || c = '\u1680' ||
  ('\u2000' ≤ c && c ≤ '\u200a') ||
  c = '\u2028' || c = '\u2029' || c = '\u202f' || c = '\u205f' || c = '\u3000'

/-- Helper of `fields`: accumulates the current run of non-space characters
(in reverse) and cuts at each white-space character. -/
def fieldsAux : List Char → List Char → List (List Char)
  | [], acc => if acc.isEmpty then [] else [acc.reverse]
  | c :: rest, acc =>
    if isSpaceChar c then
      if acc.isEmpty then fieldsAux rest []
      else acc.reverse :: fieldsAux rest []
    else fieldsAux rest (c :: acc)

/-- Go `strings.Fields`: the maximal runs of non-white-space characters. -/
def fields (s : List Char) : List (List Char) := fieldsAux s []

/-- Go `strings.TrimSpace`: drop leading and trailing white space. -/
def trimSpace (s : List Char) : List Char :=
  ((s.dropWhile isSpaceChar).reverse.dropWhile isSpaceChar).reverse

/-- ASCII decimal digit test, as in `strconv`. -/
def isDigitChar (c : Char) : Bool := '0' ≤ c && c ≤ '9'

/-- Value of a string of decimal digits. -/
def natOfDigits (ds : List Char) : Nat :=
  ds.foldl (fun acc c => 10 * acc + (c.toNat - '0'.toNat)) 0

/-- Go `strconv.Atoi` (= `ParseInt` base 10, bit size 64, as compiled for a
64-bit platform): optional sign, at least one digit, all digits, and the
result must fit in a signed 64-bit integer; otherwise an error is returned. -/
def goAtoi (s : List Char) : Except String Int :=
  let (neg, ds) :=
    match s with
    | '-' :: rest => (true, rest)
    | '+' :: rest => (false, rest)
    | _ => (false, s)
  if ds.isEmpty then .error "invalid syntax"
  else if ds.all isDigitChar then
    let v : Int := if neg then -(natOfDigits ds : Int) else (natOfDigits ds : Int)
    if v < -(2 ^ 63) || 2 ^ 63 ≤ v then .error "value out of range"
    else .ok v
  else .error "invalid syntax"

/-! ## CTCP / DCC SEND parsing (`xdcc/xdcc.go`, lines 41–116) -/

/-- Embedding of `net.IP` restricted to what `uint32ToIP` builds: the four
octets of an IPv4 address. -/
structure IPv4 where
  a : Nat
  b : Nat
  c : Nat
  d : Nat
deriving DecidableEq, Repr

/-- Go `uint32ToIP`: `byte(n>>24&255)`, `byte(n>>16&255)`, `byte(n>>8&255)`,
`byte(n&255)`.  On Go `int`, `>>` is an arithmetic shift (floor division by a
power of two) and `& 255` is the non-negative residue mod 256. -/
def uint32ToIP (n : Int) : IPv4 :=
  { a := ((n.fdiv (2 ^ 24)).emod 256).toNat
    b := ((n.fdiv (2 ^ 16)).emod 256).toNat
    c := ((n.fdiv (2 ^ 8)).emod 256).toNat
    d := (n.emod 256).toNat }

/-- Go `XdccSendRes`: the decoded DCC SEND offer.  `Port` and `FileSize`
are Go `int` fields, hence `Int` here. -/
structure XdccSendRes where
  fileName : List Char
  ip : IPv4
  port : Int
  fileSize : Int
deriving DecidableEq, Repr

/-- Go constant `XdccSendResArgs = 4`. -/
def XdccSendResArgs : Nat := 4

/-- Go `(*XdccSendRes).Parse`: exactly four arguments; args 1, 2, 3 must
pass `strconv.Atoi`; the first `Atoi` result is expanded with `uint32ToIP`. -/
def xdccSendResParse (args : List (List Char)) : Except String XdccSendRes :=
  if args.length ≠ XdccSendResArgs then .error "invalid number of arguments"
  else
    match args with
    | [a0, a1, a2, a3] =>
      match goAtoi a1 with
      | .error e => .error e
      | .ok ipUint32 =>
        match goAtoi a2 with
        | .error e => .error e
        | .ok port =>
          match goAtoi a3 with
          | .error e => .error e
          | .ok size => .ok ⟨a0, uint32ToIP ipUint32, port, size⟩
    | _ => .error "invalid number of arguments"

/-- Go constant `SEND`. -/
def SENDtoken : List Char := "SEND".toList

/-- Go constant `VERSION = "\x01VERSION\x01"`. -/
def VERSIONtoken : List Char := "\x01VERSION\x01".toList

/-- Go `parseCTCPRes`.  The result is `none` when the Go code panics
(`fields[0]` on an empty slice); otherwise `some` of the returned pair,
where `.ok none` is the `(nil, nil)` return for `VERSION`, `.ok (some r)`
is a parsed `XdccSendRes`, and `.error` is a returned parse error. -/
def parseCTCPRes (text : List Char) : Option (Except String (Option XdccSendRes)) :=
  match fields text with
  | [] => none
  | f0 :: rest =>
    if trimSpace f0 = SENDtoken then
      some (match xdccSendResParse rest with
            | .error e => .error e
            | .ok r => .ok (some r))
    else if trimSpace f0 = VERSIONtoken then
      some (.ok none)
    else
      some (.error ("invalid command: " ++ String.mk f0))

/-! ## Filename sanitizer (`xdcc/filename.go`, `SanitizeFilename`)

Go rune comparisons such as `r >= 'a' && r <= 'z'` compare code points, so
ranges are stated on `Char.toNat`; single-character tests use `Char`
equality.  The `golang.org/x/text` normalization chain
`transform.Chain(norm.NFD, runes.Remove(runes.In(unicode.Mn)), norm.NFC)`
is an external library call and is abstracted as a function argument
`normalize`; the theorems that need it assume only that it is the identity
on ASCII strings, which holds of NFD/NFC (ASCII is normalization-inert)
and of removing the non-ASCII category `Mn`. -/

/-- The allowed set of `SanitizeFilename`:
`a-z A-Z 0-9 _ , space ( ) @ . - [ ]`. -/
def isAllowedChar (c : Char) : Bool :=
  (97 ≤ c.toNat && c.toNat ≤ 122) ||
  (65 ≤ c.toNat && c.toNat ≤ 90) ||
  (48 ≤ c.toNat && c.toNat ≤ 57) ||
  c = '_' || c = ',' || c = ' ' ||
  c = '(' || c = ')' || c = '@' ||
  c = '.' || c = '-' || c = '[' || c = ']'

/-- The per-rune step of the sanitizer's builder loop: keep an allowed rune,
replace any other rune with an underscore. -/
def replaceChar (c : Char) : Char := if isAllowedChar c then c else '_'

/-- Cut set of `strings.Trim(sanitized, " .")`. -/
def isSpaceOrDot (c : Char) : Bool := c = ' ' || c = '.'

/-- Cut set of `strings.Trim(sanitized, "_")`. -/
def isUnderscoreChar (c : Char) : Bool := c = '_'

/-- Go `strings.Trim(s, cutset)`: drop the characters of the cut set from
both ends. -/
def trimBoth (p : Char → Bool) (s : List Char) : List Char :=
  ((s.dropWhile p).reverse.dropWhile p).reverse

/-- Go `strings.Contains(s, "__")`. -/
def containsDoubleUnderscore : List Char → Bool
  | [] => false
  | [_] => false
  | c1 :: c2 :: rest =>
    (c1 = '_' && c2 = '_') || containsDoubleUnderscore (c2 :: rest)

/-- Go `strings.ReplaceAll(s, "__", "_")`: replace non-overlapping
occurrences of `__` left to right. -/
def replaceDoubleUnderscore : List Char → List Char
  | [] => []
  | [c] => [c]
  | c1 :: c2 :: rest =>
    if c1 = '_' && c2 = '_' then '_' :: replaceDoubleUnderscore rest
    else c1 :: replaceDoubleUnderscore (c2 :: rest)

/-- Fuel-indexed unfolding of the Go loop `for strings.Contains(sanitized,
"__") { sanitized = strings.ReplaceAll(sanitized, "__", "_") }`:
each iteration with an occurrence of `__` strictly shrinks the string
(`replaceDouble_length_lt`), so `s.length` fuel always reaches the loop's
exit condition (`collapseUnderscores_not_contains` below). -/
def collapseLoop : Nat → List Char → List Char
  | 0, s => s
  | fuel + 1, s =>
    if containsDoubleUnderscore s then collapseLoop fuel (replaceDoubleUnderscore s)
    else s

/-- The collapse loop of `SanitizeFilename`, run to its exit condition. -/
def collapseUnderscores (s : List Char) : List Char := collapseLoop s.length s

/-- Go constant result `"unnamed_file"`. -/
def unnamedFile : List Char := "unnamed_file".toList

/-- Go `SanitizeFilename`, with the `x/text` normalization chain abstracted
as `normalize` (see the section comment). -/
def SanitizeFilename (normalize : List Char → List Char)
    (filename : List Char) : List Char :=
  if filename.isEmpty then unnamedFile
  else
    let normalized := normalize filename
    let built := normalized.map replaceChar
    let trimmed := trimBoth isSpaceOrDot built
    let collapsed := collapseUnderscores trimmed
    if collapsed = [] || collapsed = ['_'] ||
        trimBoth isUnderscoreChar collapsed = [] then unnamedFile
    else collapsed

/-- Edge condition used by the sanitizer claims: neither the first nor the
last character of `s` satisfies `p`. -/
def noEdgeChars (p : Char → Bool) (s : List Char) : Bool :=
  (match s.head? with
   | none => true
   | some c => !(p c)) &&
  (match s.getLast? with
   | none => true
   | some c => !(p c))

/-- The shape of every `SanitizeFilename` result: only allowed characters,
no space or dot at either edge, no `__`, nonempty, and not made of
underscores only. -/
def sanitizedGood (s : List Char) : Bool :=
  s.all isAllowedChar && noEdgeChars isSpaceOrDot s &&
  !containsDoubleUnderscore s && !s.isEmpty && !s.all isUnderscoreChar

/-! ## Transfer events and handlers (`xdcc/xdcc.go`, lines 118–343, 415–484)

The event variants mirror `TransferEvent`; payload fields that no claim
inspects (URLs, byte counts, rates, file names, the `Aborted` error text)
are omitted, while the fields the claims quantify over (`Fatal` of an
error event, `Attempt`/`MaxAttempts`/`Reason` of a retry event) are kept. -/

/-- The transfer event stream (`TransferConnectingEvent`,
`TransferConnectedEvent`, `TransferStartedEvent`, `TransferProgessEvent`,
`TransferCompletedEvent`, `TransferAbortedEvent`, `TransferErrorEvent`,
`TransferRetryEvent`). -/
inductive Ev
  | Connecting
  | Connected
  | Started
  | Progress
  | Completed
  | Aborted
  | ErrorEv (fatal : Bool)
  | Retry (attempt maxAttempts : Nat) (reason : String)
deriving DecidableEq, Repr

/-- Go constant `maxConnAttempts = 5`. -/
def maxConnAttempts : Nat := 5

/-- Go constant `downloadBufSize = 1024` (the 1 KiB read buffer). -/
def downloadBufSize : Nat := 1024

/-- The mutable fields of `XdccTransfer` that the handlers read and write
(`connAttempts`, `started`), together with two run facts needed to guard
steps: whether the control connection is currently up, and how many data
download goroutines are active. -/
structure TState where
  connAttempts : Nat
  started : Bool
  connUp : Bool
  activeDownloads : Nat
deriving DecidableEq, Repr

/-- The `irc.CONNECTED` handler of `setupHandlers`: reset `connAttempts`
to zero, emit `TransferConnectedEvent`, issue `JOIN` (no event). -/
def handleConnected (st : TState) : TState × List Ev :=
  ({ st with connAttempts := 0 }, [Ev.Connected])

/-- The `irc.ERROR` handler of `setupHandlers`: emit a
`TransferErrorEvent` with `ErrorType: "irc"` and `Fatal: false`. -/
def handleIrcError (st : TState) : TState × List Ev :=
  (st, [Ev.ErrorEv false])

/-- Result of one run of the `irc.DISCONNECTED` handler. -/
structure DisconnectResult where
  st : TState
  events : List Ev
  sleptSeconds : Nat
  reconnectAttempted : Bool
deriving Repr

/-- The `irc.DISCONNECTED` handler of `setupHandlers`, with the outcome of
the inner `conn.Connect()` supplied as `reconnectOk`.  Below
`maxConnAttempts` it emits `Retry{connAttempts+1, maxConnAttempts,
"disconnected"}`, sleeps one second and reconnects; then, if the
reconnect errored — or the budget was already exhausted, in which case
`err` stayed `nil` and no reconnect was attempted — and the DCC transfer
has not started, it emits `TransferAbortedEvent`; finally `connAttempts`
is incremented. -/
def handleDisconnected (st : TState) (reconnectOk : Bool) : DisconnectResult :=
  if st.connAttempts < maxConnAttempts then
    let evs := [Ev.Retry (st.connAttempts + 1) maxConnAttempts "disconnected"]
    let evs := if !reconnectOk && !st.started then evs ++ [Ev.Aborted] else evs
    { st := { st with connAttempts := st.connAttempts + 1, connUp := reconnectOk }
      events := evs
      sleptSeconds := 1
      reconnectAttempted := true }
  else
    let evs := if !st.started then [Ev.Aborted] else []
    { st := { st with connAttempts := st.connAttempts + 1, connUp := false }
      events := evs
      sleptSeconds := 0
      reconnectAttempted := false }

/-- Labeled reachability of the event traces of one `XdccTransfer` run,
from the `Start()` call (which emits `Connecting` and makes the initial
`conn.Connect()` attempt, of outcome `connectOk`).  Each constructor is
one handler run or one step of the data goroutine, appending the events it
pushes onto the transfer's channel:

* `connected`, `ircError`, `disconnect` are the corresponding handlers
  (the `JOIN`, `PRIVMSG` and CTCP `VERSION` handlers emit no event and
  change no modelled state, so they need no step);
* `ctcpSend` is `handleXdccSendRes` on a parsed offer together with the
  start of its goroutine up to the `TransferStartedEvent`, which also sets
  `transfer.started = true` (a failed data dial kills the process via
  `log.Fatalf` before any event, so it contributes no step);
* `progress` is one `SpeedMonitorReader.onUpdate` callback of an active
  download; `complete` is the `TransferCompletedEvent` at the end of the
  download loop. -/
inductive Reachable : List Ev → TState → Prop
  | start (connectOk : Bool) :
      Reachable [Ev.Connecting] ⟨0, false, connectOk, 0⟩
  | connected {tr : List Ev} {st : TState} :
      Reachable tr st → st.connUp = true →
      Reachable (tr ++ (handleConnected st).2) (handleConnected st).1
  | ircError {tr : List Ev} {st : TState} :
      Reachable tr st → st.connUp = true →
      Reachable (tr ++ (handleIrcError st).2) (handleIrcError st).1
  | ctcpSend {tr : List Ev} {st : TState} :
      Reachable tr st → st.connUp = true →
      Reachable (tr ++ [Ev.Started])
        ⟨st.connAttempts, true, st.connUp, st.activeDownloads + 1⟩
  | progress {tr : List Ev} {st : TState} :
      Reachable tr st → 0 < st.activeDownloads →
      Reachable (tr ++ [Ev.Progress]) st
  | complete {tr : List Ev} {st : TState} :
      Reachable tr st → 0 < st.activeDownloads →
      Reachable (tr ++ [Ev.Completed])
        ⟨st.connAttempts, st.started, st.connUp, st.activeDownloads - 1⟩
  | disconnect {tr : List Ev} {st : TState} (reconnectOk : Bool) :
      Reachable tr st → st.connUp = true →
      Reachable (tr ++ (handleDisconnected st reconnectOk).events)
        (handleDisconnected st reconnectOk).st

/-- Matcher for the sub-regex `Progress* Completed`. -/
def matchProgressCompleted : List Ev → Bool
  | [Ev.Completed] => true
  | Ev.Progress :: rest => matchProgressCompleted rest
  | _ => false

/-- Matcher for the regex tail
`(Started Progress* Completed | Aborted | Error(fatal:true))`. -/
def matchFinal : List Ev → Bool
  | [Ev.Aborted] => true
  | [Ev.ErrorEv true] => true
  | Ev.Started :: rest => matchProgressCompleted rest
  | _ => false

/-- Matcher for `Retry* (Connected Retry*)* tail`: since the tail begins
with neither `Connected` nor `Retry`, this equals `(Connected | Retry)*
tail` and the greedy match is exact. -/
def matchMiddle : List Ev → Bool
  | Ev.Connected :: rest => matchMiddle rest
  | Ev.Retry _ _ _ :: rest => matchMiddle rest
  | l => matchFinal l

/-- The event regex of the claim: `Connecting Retry* (Connected Retry*)*
(Started Progress* Completed | Aborted | Error(fatal:true))`. -/
def matchesEventRegex : List Ev → Bool
  | Ev.Connecting :: rest => matchMiddle rest
  | _ => false

/-- One pass over a trace checking order facts, with `seen` recording
whether a `Started` occurred earlier: every `Progress` and `Completed`
follows some `Started`; no `Aborted` follows a `Started`; every error
event is non-fatal; every retry event carries an attempt in
`1..maxConnAttempts`, the maximum `maxConnAttempts`, and the reason
`"disconnected"`. -/
def checkEventOrder : List Ev → Bool → Bool
  | [], _ => true
  | Ev.Started :: rest, _ => checkEventOrder rest true
  | Ev.Progress :: rest, seen => seen && checkEventOrder rest seen
  | Ev.Completed :: rest, seen => seen && checkEventOrder rest seen
  | Ev.Aborted :: rest, seen => !seen && checkEventOrder rest seen
  | Ev.ErrorEv fatal :: rest, seen => !fatal && checkEventOrder rest seen
  | Ev.Retry a m reason :: rest, seen =>
      (decide (1 ≤ a) && decide (a ≤ maxConnAttempts) &&
        decide (m = maxConnAttempts) && decide (reason = "disconnected")) &&
      checkEventOrder rest seen
  | Ev.Connecting :: rest, seen => checkEventOrder rest seen
  | Ev.Connected :: rest, seen => checkEventOrder rest seen

/-- The `seen a Started` accumulator of `checkEventOrder` on its own. -/
def seenStarted : List Ev → Bool → Bool
  | [], b => b
  | Ev.Started :: rest, _ => seenStarted rest true
  | _ :: rest, b => seenStarted rest b

/-! ## Download loop (`handleXdccSendRes`, lines 454–472) -/

/-- The download loop: starting from `downloadedBytesTotal = total` bytes,
consume the successive read sizes of `reads` (each `Read` fills at most
the 1 KiB buffer) while the total is below `send.FileSize`.  Returns the
final total, with `true` when the loop condition failed (the code then
flushes and emits `TransferCompletedEvent`) and `false` when the supplied
reads ran out with the loop still waiting for data.  A read or write
error terminates the process via `log.Fatal` before any further count, so
error runs are the truncated prefixes already covered by `reads`. -/
def downloadLoop (fileSize : Int) : List Nat → Int → Int × Bool
  | [], total => if total < fileSize then (total, false) else (total, true)
  | n :: rest, total =>
    if total < fileSize then downloadLoop fileSize rest (total + n)
    else (total, true)

/-! ## Retry/fallback wrapper (`NewTransfer`, `retryTransfer.Start`) -/

/-- Connection flavor of one `newXdccTransfer` call: its `enableSSL` and
`skipCertificateCheck` arguments (`config.SSL` and
`config.SSLConfig.InsecureSkipVerify`). -/
structure Flavor where
  enableSSL : Bool
  skipCertificateCheck : Bool
deriving DecidableEq, Repr

/-- What the fallback claim observes of one inner `XdccTransfer`: its
flavor and the identity of the event channel it uses (channels numbered
by allocation order). -/
structure MTransfer where
  flavor : Flavor
  eventsChan : Nat
deriving DecidableEq, Repr

/-- Go `newXdccTransfer(c, enableSSL, skipCertificateCheck)`, restricted
to the observed fields; `freshChan` is the identity of the
`make(chan TransferEvent, defaultEventChanSize)` the constructor runs. -/
def newXdccTransferM (enableSSL skipCertificateCheck : Bool)
    (freshChan : Nat) : MTransfer :=
  { flavor := ⟨enableSSL, skipCertificateCheck⟩, eventsChan := freshChan }

/-- Go `retryTransfer.Start`, with the outcome of each inner `Start()`
given by the oracle `startOk`: try the initial verified-TLS transfer; on
error build an insecure-TLS transfer reusing the first one's event
channel and try it; on error build a plaintext transfer again reusing the
channel and return its result.  Produces the transfers in the order tried
and the overall success. -/
def retryStart (startOk : MTransfer → Bool) : List MTransfer × Bool :=
  let t1 := newXdccTransferM true false 0
  if startOk t1 then ([t1], true)
  else
    let t2 := { newXdccTransferM true true 1 with eventsChan := t1.eventsChan }
    if startOk t2 then ([t1, t2], true)
    else
      let t3 := { newXdccTransferM false false 2 with eventsChan := t2.eventsChan }
      ([t1, t2, t3], startOk t3)

/-- Go `NewTransfer`: with `SSLOnly` set, one verified-TLS transfer and no
fallback wrapper; otherwise the `retryTransfer` ladder.  Returns the
transfers started, in order. -/
def newTransferAttempts (sslOnly : Bool) (startOk : MTransfer → Bool) :
    List MTransfer :=
  if sslOnly then [newXdccTransferM true false 0]
  else (retryStart startOk).1

/-! ## The get subcommand (`cmd/main.go`, `execGet`) -/

/-- Outcome of `xdcc.ParseURL` for one URL.

Modelled from the spec: the URL parser's source is not among the provided
files; spec §4.1 states that on any deviation the parser fails with
`InvalidURL`, so every parse failure is `ErrInvalidURL` (`invalidURL`).
`otherErr` is kept to embed `execGet`'s separate `err != nil` branch for a
hypothetical different error. -/
inductive URLParseOutcome
  | ok
  | invalidURL
  | otherErr
deriving DecidableEq, Repr

/-- How one started transfer ends, as observed by the `get` process:
`completes success` is a `doTransfer` call that returns — its event loop
saw `Completed` (true) or `Aborted` (false) — after which the goroutine
updates the result counters; `killsProcess` is a transfer that terminates
the whole process with exit code 1: the CTCP handler calls `os.Exit(1)` on
a malformed CTCP line (xdcc.go:312) and the data goroutine calls
`log.Fatal` on a dial, file-open, read or write fault (xdcc.go:421, 435,
461, 466). -/
inductive TransferRun
  | completes (success : Bool)
  | killsProcess
deriving DecidableEq, Repr

/-- Whether a URL starts a transfer that kills the process. -/
def transferKills : URLParseOutcome × TransferRun → Bool
  | (URLParseOutcome.ok, TransferRun.killsProcess) => true
  | _ => false

/-- Observable outputs of `execGet` around one batch of URLs. -/
inductive GetOutput
  | usagePrinted
  | inputFileErrorPrinted
  | cliParseMessage
  | cliOtherErrMessage
  | jsonlErrorEvent (errorType : String) (fatal : Bool)
  | transferStarted
  | jsonlFinished (totalTransfers successful failed : Nat)
deriving DecidableEq, Repr

/-- Result of `execGet`: the outputs the `get` layer itself emits, in
order — `none` when a transfer kills the process mid-run, since the
emitted prefix then depends on goroutine scheduling — and the process
exit code, which is the same under every schedule.  Per-transfer event
stream lines are rendered by each transfer's formatter and are not part
of this list; `transferStarted` marks the spawn of a transfer. -/
structure ExecGetResult where
  outputs : Option (List GetOutput)
  exitCode : Nat
deriving DecidableEq, Repr

/-- The URL loop of `execGet`.  Each URL comes with its `ParseURL` outcome
and, when the parse succeeds, with the run of the transfer it starts.
Returns the outputs in order, `some code` when `os.Exit(code)` fired
inside the loop itself, and the `totalTransfers`/`successful`/`failed`
counters (a killed transfer updates neither counter: the process dies
before its `doTransfer` returns). -/
def execGetLoop (format : String) :
    List (URLParseOutcome × TransferRun) →
      List GetOutput × Option Nat × Nat × Nat × Nat
  | [] => ([], none, 0, 0, 0)
  | (u, run) :: rest =>
    match u with
    | .invalidURL =>
      let out := if format = "jsonl" then GetOutput.jsonlErrorEvent "parse" true
                 else GetOutput.cliParseMessage
      let (outs, code, t, s, f) := execGetLoop format rest
      (out :: outs, code, t, s, f)
    | .otherErr =>
      if format = "jsonl" then ([GetOutput.jsonlErrorEvent "parse" true], some 1, 0, 0, 0)
      else ([GetOutput.cliOtherErrMessage], some 1, 0, 0, 0)
    | .ok =>
      let (outs, code, t, s, f) := execGetLoop format rest
      (GetOutput.transferStarted :: outs, code, t + 1,
        if run = TransferRun.completes true then s + 1 else s,
        if run = TransferRun.completes false then f + 1 else f)

/-- Go `execGet` around the URL loop: a proxy initialization failure is
`log.Fatalf` (exit 1); with `-i`, a URL-list file whose load fails exits 1
(`loadUrlListFile` prints the error and calls `os.Exit(1)`,
main.go:240-261) — on a successful load its lines are already merged into
`urls`, and `inputFileLoad` is `none` when no `-i` flag was given; an
empty URL list prints usage and exits 0 (`printGetUsageAndExit` calls
`os.Exit(0)`); a started transfer that kills the process ends the run
with exit 1 before the `finished` summary can be emitted, whatever the
interleaving; otherwise the loop runs, the started transfers are awaited,
in JSONL format a final `finished` summary is emitted, and the normal
return exits 0. -/
def execGet (format : String) (proxyOk : Bool) (inputFileLoad : Option Bool)
    (urls : List (URLParseOutcome × TransferRun)) : ExecGetResult :=
  if !proxyOk then { outputs := some [], exitCode := 1 }
  else if inputFileLoad = some false then
    { outputs := some [GetOutput.inputFileErrorPrinted], exitCode := 1 }
  else if urls.isEmpty then
    { outputs := some [GetOutput.usagePrinted], exitCode := 0 }
  else if urls.any transferKills then { outputs := none, exitCode := 1 }
  else
    match execGetLoop format urls with
    | (outs, some code, _, _, _) => { outputs := some outs, exitCode := code }
    | (outs, none, total, succ, fail) =>
      if format = "jsonl" then
        { outputs := some (outs ++ [GetOutput.jsonlFinished total succ fail])
          exitCode := 0 }
      else { outputs := some outs, exitCode := 0 }

/-- Per-URL pre-flight output expected when every parse failure is
`ErrInvalidURL`. -/
def expectedGetOutput (format : String) (u : URLParseOutcome × TransferRun) :
    GetOutput :=
  match u.1 with
  | .invalidURL =>
    if format = "jsonl" then GetOutput.jsonlErrorEvent "parse" true
    else GetOutput.cliParseMessage
  | _ => GetOutput.transferStarted

/-! ## Lemmas -/

theorem replaceDouble_length_le :
    ∀ s : List Char, (replaceDoubleUnderscore s).length ≤ s.length
  | [] => by simp [replaceDoubleUnderscore]
  | [c] => by simp [replaceDoubleUnderscore]
  | c1 :: c2 :: rest => by
    rw [replaceDoubleUnderscore]
    split
    · have := replaceDouble_length_le rest
      simp only [List.length_cons]
      omega
    · have := replaceDouble_length_le (c2 :: rest)
      simp only [List.length_cons] at this ⊢
      omega

theorem replaceDouble_length_lt :
    ∀ s : List Char, containsDoubleUnderscore s = true →
      (replaceDoubleUnderscore s).length < s.length
  | [], h => by simp [containsDoubleUnderscore] at h
  | [c], h => by simp [containsDoubleUnderscore] at h
  | c1 :: c2 :: rest, h => by
    rw [replaceDoubleUnderscore]
    rw [containsDoubleUnderscore] at h
    rcases Bool.or_eq_true_iff.mp h with h1 | h2
    · rw [if_pos h1]
      have := replaceDouble_length_le rest
      simp only [List.length_cons]
      omega
    · split
      · have := replaceDouble_length_le rest
        simp only [List.length_cons]
        omega
      · have := replaceDouble_length_lt (c2 :: rest) h2
        simp only [List.length_cons] at this ⊢
        omega

theorem getLast?_reverse (l : List Char) : l.reverse.getLast? = l.head? :=
  List.getLast?_reverse l

theorem getLast?_cons_of_ne (a : Char) {l : List Char} (h : l ≠ []) :
    (a :: l).getLast? = l.getLast? := by
  cases l with
  | nil => exact absurd rfl h
  | cons b t => exact List.getLast?_cons_cons

theorem dropWhile_head?_false (p : Char → Bool) :
    ∀ (l : List Char) (c : Char), (l.dropWhile p).head? = some c → p c = false := by
  intro l
  induction l with
  | nil => intro c hc; simp at hc
  | cons a t ih =>
    intro c hc
    rw [List.dropWhile_cons] at hc
    by_cases hp : p a = true
    · rw [if_pos hp] at hc
      exact ih c hc
    · rw [if_neg hp] at hc
      simp only [List.head?_cons, Option.some.injEq] at hc
      subst hc
      exact Bool.eq_false_iff.mpr hp

theorem dropWhile_eq_self_of_head (p : Char → Bool) (l : List Char)
    (h : ∀ c, l.head? = some c → p c = false) : l.dropWhile p = l := by
  cases l with
  | nil => rfl
  | cons a t => simp [List.dropWhile_cons, h a rfl]

theorem dropWhile_getLast? (p : Char → Bool) :
    ∀ l : List Char, l.dropWhile p ≠ [] → (l.dropWhile p).getLast? = l.getLast? := by
  intro l
  induction l with
  | nil => simp
  | cons a t ih =>
    intro h
    rw [List.dropWhile_cons] at h ⊢
    by_cases hp : p a = true
    · rw [if_pos hp] at h ⊢
      have ht : t ≠ [] := by
        rintro rfl
        simp [List.dropWhile] at h
      rw [ih h, getLast?_cons_of_ne a ht]
    · rw [if_neg hp]

theorem trimBoth_head? (p : Char → Bool) (s : List Char)
    (c : Char) (hc : (trimBoth p s).head? = some c) : p c = false := by
  rw [trimBoth, List.head?_reverse] at hc
  have hne : (s.dropWhile p).reverse.dropWhile p ≠ [] := by
    intro h0
    rw [h0] at hc
    simp at hc
  rw [dropWhile_getLast? p _ hne, getLast?_reverse] at hc
  exact dropWhile_head?_false p s c hc

theorem trimBoth_getLast? (p : Char → Bool) (s : List Char)
    (c : Char) (hc : (trimBoth p s).getLast? = some c) : p c = false := by
  rw [trimBoth, getLast?_reverse] at hc
  exact dropWhile_head?_false p _ c hc

theorem trimBoth_noEdge (p : Char → Bool) (s : List Char) :
    noEdgeChars p (trimBoth p s) = true := by
  unfold noEdgeChars
  rw [Bool.and_eq_true]
  refine ⟨?_, ?_⟩
  · cases hh : (trimBoth p s).head? with
    | none => rfl
    | some c => simpa using trimBoth_head? p s c hh
  · cases hg : (trimBoth p s).getLast? with
    | none => rfl
    | some c => simpa using trimBoth_getLast? p s c hg

theorem trimBoth_eq_self (p : Char → Bool) (s : List Char)
    (h : noEdgeChars p s = true) : trimBoth p s = s := by
  unfold noEdgeChars at h
  rw [Bool.and_eq_true] at h
  obtain ⟨h1, h2⟩ := h
  have hd : s.dropWhile p = s := by
    apply dropWhile_eq_self_of_head
    intro c hc
    rw [hc] at h1
    simpa using h1
  have hr : s.reverse.dropWhile p = s.reverse := by
    apply dropWhile_eq_self_of_head
    intro c hc
    rw [List.head?_reverse] at hc
    rw [hc] at h2
    simpa using h2
  rw [trimBoth, hd, hr, List.reverse_reverse]

theorem all_dropWhile (p q : Char → Bool) (s : List Char) (h : s.all q = true) :
    (s.dropWhile p).all q = true := by
  induction s with
  | nil => simp
  | cons a t ih =>
    rw [List.all_cons, Bool.and_eq_true] at h
    rw [List.dropWhile_cons]
    split
    · exact ih h.2
    · rw [List.all_cons, Bool.and_eq_true]
      exact ⟨h.1, h.2⟩

theorem trimBoth_all (p q : Char → Bool) (s : List Char) (h : s.all q = true) :
    (trimBoth p s).all q = true := by
  rw [trimBoth, List.all_reverse]
  exact all_dropWhile p q _ (by rw [List.all_reverse]; exact all_dropWhile p q s h)

theorem trimBoth_eq_nil_iff (p : Char → Bool) (s : List Char) :
    trimBoth p s = [] ↔ s.all p = true := by
  constructor
  · intro h
    rw [trimBoth] at h
    have h2 : (s.dropWhile p).reverse.dropWhile p = [] := by
      have := congrArg List.reverse h
      simpa using this
    rw [List.dropWhile_eq_nil_iff] at h2
    have h3 : ∀ x ∈ s.dropWhile p, p x = true := by
      intro x hx
      exact h2 x (List.mem_reverse.mpr hx)
    rw [List.all_eq_true]
    intro x hx
    rw [← List.takeWhile_append_dropWhile p s] at hx
    rcases List.mem_append.mp hx with h | h
    · exact List.mem_takeWhile_imp h
    · exact h3 x h
  · intro h
    rw [List.all_eq_true] at h
    have : s.dropWhile p = [] := List.dropWhile_eq_nil_iff.mpr h
    rw [trimBoth, this]
    rfl

theorem replaceDouble_all (q : Char → Bool) (hq : q '_' = true) :
    ∀ s : List Char, s.all q = true → (replaceDoubleUnderscore s).all q = true
  | [], h => by simp [replaceDoubleUnderscore]
  | [c], h => by simpa [replaceDoubleUnderscore] using h
  | c1 :: c2 :: rest, h => by
    rw [replaceDoubleUnderscore]
    rw [List.all_cons, List.all_cons, Bool.and_eq_true, Bool.and_eq_true] at h
    split
    · rw [List.all_cons, Bool.and_eq_true]
      exact ⟨hq, replaceDouble_all q hq rest h.2.2⟩
    · rw [List.all_cons, Bool.and_eq_true]
      refine ⟨h.1, replaceDouble_all q hq (c2 :: rest) ?_⟩
      rw [List.all_cons, Bool.and_eq_true]
      exact ⟨h.2.1, h.2.2⟩

theorem replaceDouble_head? : ∀ s : List Char,
    (replaceDoubleUnderscore s).head? = s.head?
  | [] => rfl
  | [_] => rfl
  | c1 :: c2 :: rest => by
    rw [replaceDoubleUnderscore]
    split
    · next hcond =>
      rw [Bool.and_eq_true] at hcond
      have h1 : c1 = '_' := by simpa using hcond.1
      simp [h1]
    · rfl

theorem replaceDouble_ne_nil : ∀ s : List Char, s ≠ [] → replaceDoubleUnderscore s ≠ []
  | [], h => absurd rfl h
  | [c], _ => by simp [replaceDoubleUnderscore]
  | c1 :: c2 :: rest, _ => by
    rw [replaceDoubleUnderscore]
    split <;> simp

theorem replaceDouble_getLast? : ∀ s : List Char,
    (replaceDoubleUnderscore s).getLast? = s.getLast?
  | [] => rfl
  | [_] => rfl
  | c1 :: c2 :: rest => by
    rw [replaceDoubleUnderscore]
    split
    · next hcond =>
      rw [Bool.and_eq_true] at hcond
      have hc2 : c2 = '_' := by simpa using hcond.2
      cases rest with
      | nil => simp [replaceDoubleUnderscore, hc2]
      | cons r rs =>
        have hne : replaceDoubleUnderscore (r :: rs) ≠ [] :=
          replaceDouble_ne_nil _ (List.cons_ne_nil r rs)
        rw [getLast?_cons_of_ne _ hne, replaceDouble_getLast? (r :: rs),
          List.getLast?_cons_cons, getLast?_cons_of_ne _ (List.cons_ne_nil r rs)]
    · have hne : replaceDoubleUnderscore (c2 :: rest) ≠ [] :=
        replaceDouble_ne_nil _ (List.cons_ne_nil c2 rest)
      rw [getLast?_cons_of_ne _ hne, replaceDouble_getLast? (c2 :: rest),
        getLast?_cons_of_ne _ (List.cons_ne_nil c2 rest)]

theorem collapseLoop_not_contains :
    ∀ (fuel : Nat) (s : List Char), s.length ≤ fuel →
      containsDoubleUnderscore (collapseLoop fuel s) = false
  | 0, s, h => by
    have hs : s = [] := List.length_eq_zero.mp (Nat.le_zero.mp h)
    subst hs
    rfl
  | fuel + 1, s, h => by
    rw [collapseLoop]
    split
    · next hc =>
      refine collapseLoop_not_contains fuel _ ?_
      have := replaceDouble_length_lt s hc
      omega
    · next hc => exact Bool.eq_false_iff.mpr hc

theorem collapseLoop_all (q : Char → Bool) (hq : q '_' = true) :
    ∀ (fuel : Nat) (s : List Char), s.all q = true →
      (collapseLoop fuel s).all q = true
  | 0, _, h => h
  | fuel + 1, s, h => by
    rw [collapseLoop]
    split
    · exact collapseLoop_all q hq fuel _ (replaceDouble_all q hq s h)
    · exact h

theorem collapseLoop_head? :
    ∀ (fuel : Nat) (s : List Char), (collapseLoop fuel s).head? = s.head?
  | 0, _ => rfl
  | fuel + 1, s => by
    rw [collapseLoop]
    split
    · rw [collapseLoop_head? fuel _, replaceDouble_head? s]
    · rfl

theorem collapseLoop_getLast? :
    ∀ (fuel : Nat) (s : List Char), (collapseLoop fuel s).getLast? = s.getLast?
  | 0, _ => rfl
  | fuel + 1, s => by
    rw [collapseLoop]
    split
    · rw [collapseLoop_getLast? fuel _, replaceDouble_getLast? s]
    · rfl

theorem collapseLoop_of_not_contains (fuel : Nat) (s : List Char)
    (h : containsDoubleUnderscore s = false) : collapseLoop fuel s = s := by
  cases fuel with
  | zero => rfl
  | succ n =>
    rw [collapseLoop, if_neg]
    simp [h]

theorem noEdgeChars_congr (p : Char → Bool) {s t : List Char}
    (hh : t.head? = s.head?) (hg : t.getLast? = s.getLast?) :
    noEdgeChars p t = noEdgeChars p s := by
  unfold noEdgeChars
  rw [hh, hg]

theorem allowed_ascii (c : Char) (h : isAllowedChar c = true) : c.toNat < 128 := by
  rw [isAllowedChar] at h
  simp only [Bool.or_eq_true, Bool.and_eq_true, decide_eq_true_eq, or_assoc] at h
  rcases h with h | h | h | h | h | h | h | h | h | h | h | h | h
  all_goals first
    | omega
    | (subst h; decide)

theorem replaceChar_allowed (c : Char) : isAllowedChar (replaceChar c) = true := by
  rw [replaceChar]
  split
  · next h => exact h
  · decide

theorem map_replaceChar_all (l : List Char) :
    ((l.map replaceChar).all isAllowedChar) = true := by
  rw [List.all_map, List.all_eq_true]
  intro c _
  exact replaceChar_allowed c

theorem map_replaceChar_eq_self (l : List Char) (h : l.all isAllowedChar = true) :
    l.map replaceChar = l := by
  induction l with
  | nil => rfl
  | cons a t ih =>
    rw [List.all_cons, Bool.and_eq_true] at h
    rw [List.map_cons, ih h.2, replaceChar, if_pos h.1]

theorem sanitizedGood_unnamed : sanitizedGood unnamedFile = true := by decide

theorem SanitizeFilename_good (normalize : List Char → List Char) (s : List Char) :
    sanitizedGood (SanitizeFilename normalize s) = true := by
  simp only [SanitizeFilename]
  split
  · exact sanitizedGood_unnamed
  · split
    · exact sanitizedGood_unnamed
    · next hcond =>
      simp only [Bool.or_eq_true, decide_eq_true_eq, not_or] at hcond
      obtain ⟨⟨h1, h2⟩, h3⟩ := hcond
      rw [sanitizedGood]
      simp only [Bool.and_eq_true, Bool.not_eq_true']
      set tr := trimBoth isSpaceOrDot ((normalize s).map replaceChar) with htr
      refine ⟨⟨⟨⟨?_, ?_⟩, ?_⟩, ?_⟩, ?_⟩
      · rw [collapseUnderscores]
        exact collapseLoop_all isAllowedChar (by decide) tr.length tr
          (trimBoth_all _ _ _ (map_replaceChar_all _))
      · rw [collapseUnderscores, noEdgeChars_congr isSpaceOrDot
          (collapseLoop_head? tr.length tr) (collapseLoop_getLast? tr.length tr)]
        exact trimBoth_noEdge _ _
      · rw [collapseUnderscores]
        exact collapseLoop_not_contains tr.length tr le_rfl
      · simpa using h1
      · refine Bool.eq_false_iff.mpr ?_
        intro hx
        exact h3 ((trimBoth_eq_nil_iff _ _).mpr hx)

theorem SanitizeFilename_of_good (normalize : List Char → List Char)
    (hnorm : ∀ l : List Char, (∀ c ∈ l, c.toNat < 128) → normalize l = l)
    (r : List Char) (hr : sanitizedGood r = true) : SanitizeFilename normalize r = r := by
  rw [sanitizedGood] at hr
  simp only [Bool.and_eq_true, Bool.not_eq_true'] at hr
  obtain ⟨⟨⟨⟨hall, hedge⟩, hnc⟩, hne⟩, hnu⟩ := hr
  have hascii : ∀ c ∈ r, c.toNat < 128 := by
    intro c hc
    refine allowed_ascii c ?_
    rw [List.all_eq_true] at hall
    exact hall c hc
  have hrne : r ≠ [] := by
    intro h0
    rw [h0] at hne
    simp at hne
  simp only [SanitizeFilename]
  rw [hnorm r hascii, map_replaceChar_eq_self r hall, trimBoth_eq_self _ _ hedge,
    collapseUnderscores, collapseLoop_of_not_contains _ _ hnc]
  rw [if_neg (by simp [hne]), if_neg]
  simp only [Bool.or_eq_true, decide_eq_true_eq, not_or]
  refine ⟨⟨hrne, ?_⟩, ?_⟩
  · intro h0
    rw [h0] at hnu
    simp [isUnderscoreChar] at hnu
  · intro h0
    rw [trimBoth_eq_nil_iff] at h0
    rw [h0] at hnu
    cases hnu

theorem head?_append_of_some {tr es : List Ev} {c : Ev} (h : tr.head? = some c) :
    (tr ++ es).head? = some c := by
  cases tr with
  | nil => simp at h
  | cons a t => simpa using h

theorem seenStarted_append (l1 l2 : List Ev) (b : Bool) :
    seenStarted (l1 ++ l2) b = seenStarted l2 (seenStarted l1 b) := by
  induction l1 generalizing b with
  | nil => rfl
  | cons a t ih => cases a <;> simp [seenStarted, ih]

theorem checkEventOrder_append (l1 l2 : List Ev) (b : Bool) :
    checkEventOrder (l1 ++ l2) b =
      (checkEventOrder l1 b && checkEventOrder l2 (seenStarted l1 b)) := by
  induction l1 generalizing b with
  | nil => simp [checkEventOrder, seenStarted]
  | cons a t ih =>
    cases a <;> simp [checkEventOrder, seenStarted, ih, Bool.and_assoc]

theorem reachable_invariant {tr : List Ev} {st : TState} (h : Reachable tr st) :
    tr.head? = some Ev.Connecting ∧
    checkEventOrder tr false = true ∧
    seenStarted tr false = st.started ∧
    (0 < st.activeDownloads → st.started = true) := by
  induction h with
  | start connectOk =>
    refine ⟨rfl, by decide, rfl, by simp⟩
  | connected hr hup ih =>
    obtain ⟨ih1, ih2, ih3, ih4⟩ := ih
    refine ⟨head?_append_of_some ih1, ?_, ?_, ?_⟩
    · rw [checkEventOrder_append, ih2]
      simp [handleConnected, checkEventOrder]
    · rw [seenStarted_append, ih3]
      simp [handleConnected, seenStarted]
    · simpa [handleConnected] using ih4
  | ircError hr hup ih =>
    obtain ⟨ih1, ih2, ih3, ih4⟩ := ih
    refine ⟨head?_append_of_some ih1, ?_, ?_, ?_⟩
    · rw [checkEventOrder_append, ih2]
      simp [handleIrcError, checkEventOrder]
    · rw [seenStarted_append, ih3]
      simp [handleIrcError, seenStarted]
    · simpa [handleIrcError] using ih4
  | ctcpSend hr hup ih =>
    obtain ⟨ih1, ih2, ih3, ih4⟩ := ih
    refine ⟨head?_append_of_some ih1, ?_, ?_, ?_⟩
    · rw [checkEventOrder_append, ih2]
      simp [checkEventOrder]
    · rw [seenStarted_append]
      simp [seenStarted]
    · intro _
      rfl
  | progress hr hact ih =>
    obtain ⟨ih1, ih2, ih3, ih4⟩ := ih
    refine ⟨head?_append_of_some ih1, ?_, ?_, ih4⟩
    · rw [checkEventOrder_append, ih2, ih3]
      simp [checkEventOrder, ih4 hact]
    · rw [seenStarted_append, ih3]
      simp [seenStarted, ih4 hact]
  | complete hr hact ih =>
    obtain ⟨ih1, ih2, ih3, ih4⟩ := ih
    refine ⟨head?_append_of_some ih1, ?_, ?_, ?_⟩
    · rw [checkEventOrder_append, ih2, ih3]
      simp [checkEventOrder, ih4 hact]
    · rw [seenStarted_append, ih3]
      simp [seenStarted]
    · intro _
      exact ih4 hact
  | @disconnect tr2 st2 reconnectOk hr hup ih =>
    obtain ⟨ih1, ih2, ih3, ih4⟩ := ih
    have hcheck : checkEventOrder
        (handleDisconnected st2 reconnectOk).events (seenStarted tr2 false) = true := by
      rw [ih3, handleDisconnected]
      split
    -- attempts below the maximum: Retry, then Aborted when the reconnect
    -- failed before the transfer started
      · next hlt =>
        by_cases hro : reconnectOk <;> by_cases hst : st2.started <;>
          simp [checkEventOrder, hro, hst, maxConnAttempts] <;>
          unfold maxConnAttempts at hlt <;> omega
      · next hge =>
        by_cases hst : st2.started <;> simp [checkEventOrder, hst]
    have hseen : ∀ b, seenStarted (handleDisconnected st2 reconnectOk).events b = b := by
      intro b
      rw [handleDisconnected]
      split <;> by_cases hro : reconnectOk <;> by_cases hst : st2.started <;>
        simp [seenStarted, hro, hst]
    have hst' : (handleDisconnected st2 reconnectOk).st.started = st2.started := by
      rw [handleDisconnected]
      split <;> rfl
    have hact' : (handleDisconnected st2 reconnectOk).st.activeDownloads =
        st2.activeDownloads := by
      rw [handleDisconnected]
      split <;> rfl
    refine ⟨head?_append_of_some ih1, ?_, ?_, ?_⟩
    · rw [checkEventOrder_append, ih2, hcheck]
      rfl
    · rw [seenStarted_append, hseen, ih3, hst']
    · rw [hact', hst']
      exact ih4

theorem downloadLoop_stop (fileSize : Int) (reads : List Nat) (total : Int)
    (h : ¬ total < fileSize) : downloadLoop fileSize reads total = (total, true) := by
  cases reads <;> rw [downloadLoop, if_neg h]

theorem downloadLoop_completed_ge (fileSize : Int) :
    ∀ (reads : List Nat) (total : Int),
      (downloadLoop fileSize reads total).2 = true →
      fileSize ≤ (downloadLoop fileSize reads total).1
  | [], total, h => by
    rw [downloadLoop] at h ⊢
    by_cases hlt : total < fileSize
    · rw [if_pos hlt] at h
      simp at h
    · rw [if_neg hlt]
      show fileSize ≤ total
      omega
  | n :: rest, total, h => by
    rw [downloadLoop] at h ⊢
    by_cases hlt : total < fileSize
    · rw [if_pos hlt] at h ⊢
      exact downloadLoop_completed_ge fileSize rest (total + n) h
    · rw [if_neg hlt]
      show fileSize ≤ total
      omega

theorem downloadLoop_overshoot_lt (fileSize : Int) :
    ∀ (reads : List Nat) (total : Int),
      (∀ n ∈ reads, n ≤ downloadBufSize) → total < fileSize →
      (downloadLoop fileSize reads total).1 < fileSize + downloadBufSize
  | [], total, _, hlt => by
    rw [downloadLoop, if_pos hlt]
    show total < fileSize + (downloadBufSize : Int)
    have hb : ((downloadBufSize : Nat) : Int) = 1024 := by decide
    omega
  | n :: rest, total, hr, hlt => by
    rw [downloadLoop, if_pos hlt]
    by_cases h2 : total + n < fileSize
    · exact downloadLoop_overshoot_lt fileSize rest (total + n)
        (fun m hm => hr m (List.mem_cons_of_mem n hm)) h2
    · rw [downloadLoop_stop fileSize rest _ h2]
      show total + (n : Int) < fileSize + downloadBufSize
      have hn : n ≤ downloadBufSize := hr n (List.mem_cons_self n rest)
      have hb : downloadBufSize = 1024 := rfl
      have hb2 : ((downloadBufSize : Nat) : Int) = 1024 := by decide
      omega

theorem downloadLoop_exact (fileSize : Int) :
    ∀ (reads : List Nat) (total : Int),
      total + (reads.sum : Int) ≤ fileSize →
      downloadLoop fileSize reads total =
        (total + (reads.sum : Int), decide (fileSize ≤ total + (reads.sum : Int)))
  | [], total, h => by
    rw [downloadLoop]
    simp only [List.sum_nil, Nat.cast_zero, add_zero] at h ⊢
    by_cases hlt : total < fileSize
    · rw [if_pos hlt]
      have hd : decide (fileSize ≤ total) = false := by
        simp only [decide_eq_false_iff_not]
        omega
      rw [hd]
    · rw [if_neg hlt]
      have hd : decide (fileSize ≤ total) = true := by
        simp only [decide_eq_true_eq]
        omega
      rw [hd]
  | n :: rest, total, h => by
    rw [downloadLoop]
    have hsum : (((n :: rest).sum : Nat) : Int) = (n : Int) + ((rest.sum : Nat) : Int) := by
      push_cast [List.sum_cons]
      ring
    by_cases hlt : total < fileSize
    · rw [if_pos hlt,
        downloadLoop_exact fileSize rest (total + n) (by rw [hsum] at h; omega)]
      have harg : total + (n : Int) + ((rest.sum : Nat) : Int) =
          total + (((n :: rest).sum : Nat) : Int) := by
        rw [hsum]
        ring
      rw [harg]
    · rw [if_neg hlt]
      rw [hsum] at h ⊢
      have hz : (n : Int) + ((rest.sum : Nat) : Int) = 0 := by omega
      rw [hz, add_zero]
      have hd : decide (fileSize ≤ total) = true := by
        simp only [decide_eq_true_eq]
        omega
      rw [hd]

theorem execGetLoop_spec (format : String) :
    ∀ urls : List (URLParseOutcome × TransferRun),
      URLParseOutcome.otherErr ∉ urls.map Prod.fst →
      execGetLoop format urls =
        (urls.map (expectedGetOutput format), none,
          urls.countP (fun u => u.1 == URLParseOutcome.ok),
          urls.countP (fun u => u.1 == URLParseOutcome.ok &&
            u.2 == TransferRun.completes true),
          urls.countP (fun u => u.1 == URLParseOutcome.ok &&
            u.2 == TransferRun.completes false))
  | [], _ => by simp [execGetLoop]
  | (u, run) :: rest, h => by
    simp only [List.map_cons, List.mem_cons, not_or] at h
    obtain ⟨h1, h2⟩ := h
    have ih := execGetLoop_spec format rest (by simpa using h2)
    cases u with
    | invalidURL =>
      rw [execGetLoop, ih]
      simp [expectedGetOutput, List.countP_cons]
    | otherErr => exact absurd rfl h1
    | ok =>
      rw [execGetLoop, ih]
      cases run with
      | completes b => cases b <;> simp [expectedGetOutput, List.countP_cons]
      | killsProcess => simp [expectedGetOutput, List.countP_cons]

theorem fieldsAux_ne_nil : ∀ (rest acc : List Char), acc ≠ [] → fieldsAux rest acc ≠ []
  | [], acc, h => by
    rw [fieldsAux]
    simp [h]
  | c :: rest, acc, h => by
    rw [fieldsAux]
    by_cases hs : isSpaceChar c = true
    · rw [if_pos hs]
      rw [if_neg (by simp [h])]
      simp
    · rw [if_neg hs]
      exact fieldsAux_ne_nil rest (c :: acc) (List.cons_ne_nil c acc)

theorem fields_eq_nil_iff : ∀ s : List Char, fields s = [] ↔ s.all isSpaceChar = true
  | [] => by simp [fields, fieldsAux]
  | c :: rest => by
    rw [fields, fieldsAux]
    by_cases hs : isSpaceChar c = true
    · rw [if_pos hs, if_pos (by simp)]
      rw [List.all_cons, hs, Bool.true_and]
      exact fields_eq_nil_iff rest
    · rw [if_neg hs]
      constructor
      · intro h0
        exact absurd h0 (fieldsAux_ne_nil rest [c] (by simp))
      · intro h0
        rw [List.all_cons, Bool.and_eq_true] at h0
        exact absurd h0.1 hs

theorem parseCTCPRes_isSome (text : List Char) (h : fields text ≠ []) :
    (parseCTCPRes text).isSome = true := by
  cases hf : fields text with
  | nil => exact absurd hf h
  | cons f0 rest =>
    simp only [parseCTCPRes, hf]
    split <;> try rfl
    split <;> rfl

/-! ## Claims -/

/-- C1 (counterexample): the trace `Connecting, Error{fatal:false}` is
reachable — an IRC `ERROR` line during connection makes the `ERROR`
handler emit a non-fatal error event — yet it is rejected by the claimed
regex `Connecting Retry* (Connected Retry*)* (Started Progress* Completed
| Aborted | Error{fatal:true})`. -/
theorem c1_counterexample :
    Reachable [Ev.Connecting, Ev.ErrorEv false] ⟨0, false, true, 0⟩ ∧
      matchesEventRegex [Ev.Connecting, Ev.ErrorEv false] = false := by
  constructor
  · have h1 := Reachable.ircError (Reachable.start true) rfl
    simpa [handleIrcError] using h1
  · decide

/-- C1 (amended): every reachable event trace of a transfer starts with
`Connecting` and satisfies the order facts of `checkEventOrder`: every
`Progress` and `Completed` is preceded by a `Started`, no `Aborted`
follows a `Started`, every error event on the transfer channel is
non-fatal, and every retry event carries an attempt in `1..5`, maximum 5
and reason `"disconnected"`. -/
theorem c1_event_stream_shape {tr : List Ev} {st : TState}
    (h : Reachable tr st) :
    tr.head? = some Ev.Connecting ∧ checkEventOrder tr false = true :=
  ⟨(reachable_invariant h).1, (reachable_invariant h).2.1⟩

theorem c1_witness :
    [Ev.Connecting].head? = some Ev.Connecting ∧
      checkEventOrder [Ev.Connecting] false = true :=
  c1_event_stream_shape (Reachable.start true)

/-- C2 (counterexample): with an offered size of 500 bytes and a single
read that fills the whole 1 KiB buffer, the download loop finishes with
1024 bytes counted — `downloadedBytesTotal` exceeds `send.FileSize`, and
the completion path is taken at inequality, not equality. -/
theorem c2_counterexample :
    downloadLoop 500 [1024] 0 = (1024, true) ∧
      (1024 : Nat) ≤ downloadBufSize ∧ ¬ ((1024 : Int) ≤ 500) := by
  refine ⟨by decide, by decide, by decide⟩

/-- C2 (amended): the loop exits (and `Completed` is emitted) exactly when
the cumulative count has reached **at least** `fileSize`; with reads
bounded by the 1 KiB buffer the overshoot stays below `downloadBufSize`;
and when the reads deliver no more than the offered size in total, the
count never exceeds `fileSize` and completion happens exactly at
equality. -/
theorem c2_received_bytes (fileSize : Int) (reads : List Nat) :
    ((downloadLoop fileSize reads 0).2 = true →
      fileSize ≤ (downloadLoop fileSize reads 0).1) ∧
    ((∀ n ∈ reads, n ≤ downloadBufSize) → 0 < fileSize →
      (downloadLoop fileSize reads 0).1 < fileSize + downloadBufSize) ∧
    (((reads.sum : Nat) : Int) ≤ fileSize →
      (downloadLoop fileSize reads 0).1 = ((reads.sum : Nat) : Int) ∧
      ((downloadLoop fileSize reads 0).2 = true ↔
        ((reads.sum : Nat) : Int) = fileSize)) := by
  refine ⟨downloadLoop_completed_ge fileSize reads 0, ?_, ?_⟩
  · intro hr hpos
    exact downloadLoop_overshoot_lt fileSize reads 0 hr hpos
  · intro hsum
    rw [downloadLoop_exact fileSize reads 0 (by omega)]
    constructor
    · show (0 : Int) + (reads.sum : Nat) = ((reads.sum : Nat) : Int)
      ring
    · show decide (fileSize ≤ 0 + ((reads.sum : Nat) : Int)) = true ↔ _
      simp only [decide_eq_true_eq, zero_add]
      omega

theorem c2_witness :
    (2048 : Int) ≤ (downloadLoop 2048 [1024, 1024] 0).1 ∧
    (downloadLoop 2048 [1024, 1024] 0).1 < 2048 + downloadBufSize ∧
    (downloadLoop 2048 [1024, 1024] 0).1 = ((([1024, 1024] : List Nat).sum : Nat) : Int) := by
  refine ⟨(c2_received_bytes 2048 [1024, 1024]).1 (by decide),
    (c2_received_bytes 2048 [1024, 1024]).2.1 (by decide) (by decide),
    ((c2_received_bytes 2048 [1024, 1024]).2.2 (by decide)).1⟩

/-- C3: `retryTransfer.Start` tries verified TLS, then insecure TLS, then
plaintext, each attempt made only when the previous `Start()` errored; the
later transfers reuse the first attempt's event channel (channel 0
everywhere); with `SSLOnly` set, `NewTransfer` builds only the single
verified-TLS transfer. -/
theorem c3_fallback_ladder (startOk : MTransfer → Bool) :
    ((retryStart startOk).1 =
      if startOk (newXdccTransferM true false 0) then
        [⟨⟨true, false⟩, 0⟩]
      else if startOk ⟨⟨true, true⟩, 0⟩ then
        [⟨⟨true, false⟩, 0⟩, ⟨⟨true, true⟩, 0⟩]
      else
        [⟨⟨true, false⟩, 0⟩, ⟨⟨true, true⟩, 0⟩, ⟨⟨false, false⟩, 0⟩]) ∧
    newTransferAttempts false startOk = (retryStart startOk).1 ∧
    newTransferAttempts true startOk = [⟨⟨true, false⟩, 0⟩] := by
  refine ⟨?_, rfl, rfl⟩
  by_cases h1 : startOk ⟨⟨true, false⟩, 0⟩ = true
  · simp [retryStart, newXdccTransferM, h1]
  · by_cases h2 : startOk ⟨⟨true, true⟩, 0⟩ = true <;>
      simp [retryStart, newXdccTransferM, h1, h2]

/-- C4: a CTCP `SEND` with four arguments whose numeric fields parse
yields the offer with the IPv4 address expanded big-endian from the
decimal uint32 (the concrete input of the claim produces
`filename.bin`/192.168.0.1/9000/1048576); any other argument count or a
failing `Atoi` on the second, third or fourth field yields a parse
error. -/
theorem c4_ctcp_send_contract :
    parseCTCPRes "SEND filename.bin 3232235521 9000 1048576".toList =
      some (.ok (some ⟨"filename.bin".toList, ⟨192, 168, 0, 1⟩, 9000, 1048576⟩)) ∧
    parseCTCPRes "SEND a b c".toList =
      some (.error "invalid number of arguments") ∧
    (∀ args : List (List Char), args.length ≠ XdccSendResArgs →
      xdccSendResParse args = .error "invalid number of arguments") ∧
    (∀ a0 a1 a2 a3 : List Char, ∀ e : String, goAtoi a1 = .error e →
      xdccSendResParse [a0, a1, a2, a3] = .error e) ∧
    (∀ a0 a1 a2 a3 : List Char, ∀ v : Int, ∀ e : String,
      goAtoi a1 = .ok v → goAtoi a2 = .error e →
      xdccSendResParse [a0, a1, a2, a3] = .error e) ∧
    (∀ a0 a1 a2 a3 : List Char, ∀ v w : Int, ∀ e : String,
      goAtoi a1 = .ok v → goAtoi a2 = .ok w → goAtoi a3 = .error e →
      xdccSendResParse [a0, a1, a2, a3] = .error e) := by
  refine ⟨by decide, by decide, ?_, ?_, ?_, ?_⟩
  · intro args h
    rw [xdccSendResParse.eq_def, if_pos h]
  · intro a0 a1 a2 a3 e h1
    rw [xdccSendResParse, if_neg (by simp [XdccSendResArgs])]
    simp [h1]
  · intro a0 a1 a2 a3 v e h1 h2
    rw [xdccSendResParse, if_neg (by simp [XdccSendResArgs])]
    simp [h1, h2]
  · intro a0 a1 a2 a3 v w e h1 h2 h3
    rw [xdccSendResParse, if_neg (by simp [XdccSendResArgs])]
    simp [h1, h2, h3]

theorem c4_witness :
    xdccSendResParse [['x'], ['y'], ['1'], ['2']] = .error "invalid syntax" ∧
    xdccSendResParse [['a']] = .error "invalid number of arguments" :=
  ⟨c4_ctcp_send_contract.2.2.2.1 ['x'] ['y'] ['1'] ['2'] "invalid syntax" (by decide),
    c4_ctcp_send_contract.2.2.1 [['a']] (by decide)⟩

/-- C5: the `DISCONNECTED` handler below the budget of `maxConnAttempts =
5` emits `Retry{attempt = connAttempts+1, maxAttempts = 5, reason =
"disconnected"}` first, sleeps one second and attempts a reconnect;
`connAttempts` is incremented by every run of the handler and reset to
zero by the `CONNECTED` handler; a disconnect at an exhausted budget
before the transfer has started emits exactly the `Aborted` event. -/
theorem c5_reconnect_policy (st : TState) (reconnectOk : Bool) :
    (st.connAttempts < maxConnAttempts →
      (handleDisconnected st reconnectOk).events.head? =
        some (Ev.Retry (st.connAttempts + 1) maxConnAttempts "disconnected") ∧
      (handleDisconnected st reconnectOk).sleptSeconds = 1 ∧
      (handleDisconnected st reconnectOk).reconnectAttempted = true) ∧
    (handleDisconnected st reconnectOk).st.connAttempts = st.connAttempts + 1 ∧
    (handleConnected st).1.connAttempts = 0 ∧
    (maxConnAttempts ≤ st.connAttempts → st.started = false →
      (handleDisconnected st reconnectOk).events = [Ev.Aborted]) := by
  refine ⟨?_, ?_, rfl, ?_⟩
  · intro hlt
    rw [handleDisconnected, if_pos hlt]
    by_cases hro : reconnectOk = true <;> by_cases hst : st.started = true <;>
      simp [hro, hst]
  · rw [handleDisconnected]
    split <;> rfl
  · intro hge hst
    rw [handleDisconnected, if_neg (by omega), hst]
    rfl

theorem c5_witness :
    (handleDisconnected ⟨3, false, true, 0⟩ false).events.head? =
      some (Ev.Retry 4 5 "disconnected") ∧
    (handleDisconnected ⟨3, false, true, 0⟩ false).st.connAttempts = 4 ∧
    (handleConnected ⟨4, false, true, 0⟩).1.connAttempts = 0 ∧
    (handleDisconnected ⟨5, false, true, 0⟩ true).events = [Ev.Aborted] := by
  refine ⟨((c5_reconnect_policy ⟨3, false, true, 0⟩ false).1 (by decide)).1,
    (c5_reconnect_policy ⟨3, false, true, 0⟩ false).2.1,
    (c5_reconnect_policy ⟨5, false, true, 0⟩ true).2.2.1,
    (c5_reconnect_policy ⟨5, false, true, 0⟩ true).2.2.2 (by decide) rfl⟩

/-- C6 (counterexample): with `cli` format, a URL whose parse fails with
`ErrInvalidURL` only prints `no valid irc url` and the loop continues;
the run exits 0, not 1.  Likewise an empty URL list prints usage and
exits 0 (`printGetUsageAndExit` calls `os.Exit(0)`). -/
theorem c6_counterexample :
    (execGet "cli" true none
      [(URLParseOutcome.invalidURL, TransferRun.completes false)]).exitCode = 0 ∧
    (execGet "cli" true none
      [(URLParseOutcome.invalidURL, TransferRun.completes false)]).outputs =
      some [GetOutput.cliParseMessage] ∧
    (execGet "cli" true none []).exitCode = 0 ∧
    (execGet "cli" true none []).outputs = some [GetOutput.usagePrinted] := by
  refine ⟨by decide, by decide, by decide, by decide⟩

/-- C6 (amended): an `ErrInvalidURL` parse failure never makes `get` exit
1 — the URL is skipped in both formats, with a printed message in `cli`
format and a fatal `parse` error event in `jsonl` format, and processing
continues with the next URL; an empty URL list prints usage and exits 0.
Exit 1 still occurs on the other failure paths: the pre-flight proxy
failure, a `-i` URL-list file that fails to load, and a started transfer
that kills the process (malformed CTCP, data dial/file/read/write
faults).  When none of those occur — and no URL fails with an error other
than `ErrInvalidURL`, which the URL parser contract excludes — the run
exits 0 even when transfers fail at the event level, and in `jsonl`
format the stream ends with the `finished` summary. -/
theorem c6_exit_codes (format : String) (proxyOk : Bool)
    (inputFileLoad : Option Bool)
    (urls : List (URLParseOutcome × TransferRun))
    (hspec : URLParseOutcome.otherErr ∉ urls.map Prod.fst) :
    (proxyOk = false →
      (execGet format proxyOk inputFileLoad urls).exitCode = 1) ∧
    (inputFileLoad = some false →
      (execGet format proxyOk inputFileLoad urls).exitCode = 1) ∧
    (urls.any transferKills = true → proxyOk = true →
      inputFileLoad ≠ some false →
      (execGet format proxyOk inputFileLoad urls).exitCode = 1) ∧
    (proxyOk = true → inputFileLoad ≠ some false →
      urls.any transferKills = false →
      (execGet format proxyOk inputFileLoad urls).exitCode = 0 ∧
      (urls ≠ [] →
        (execGet format proxyOk inputFileLoad urls).outputs =
          some (urls.map (expectedGetOutput format) ++
            (if format = "jsonl" then
              [GetOutput.jsonlFinished
                (urls.countP fun u => u.1 == URLParseOutcome.ok)
                (urls.countP fun u => u.1 == URLParseOutcome.ok &&
                  u.2 == TransferRun.completes true)
                (urls.countP fun u => u.1 == URLParseOutcome.ok &&
                  u.2 == TransferRun.completes false)]
            else [])))) := by
  refine ⟨?_, ?_, ?_, ?_⟩
  · intro hp
    subst hp
    simp [execGet]
  · intro hif
    subst hif
    cases proxyOk <;> simp [execGet]
  · intro hk hp hif
    subst hp
    have hne : urls.isEmpty = false := by
      cases urls with
      | nil => simp at hk
      | cons a t => rfl
    rw [execGet]
    simp [hif, hne, hk]
  · intro hp hif hk
    subst hp
    by_cases hemp : urls = []
    · subst hemp
      exact ⟨by simp [execGet, hif], fun h => absurd rfl h⟩
    · have hloop := execGetLoop_spec format urls hspec
      have hne : urls.isEmpty = false := by
        cases urls with
        | nil => exact absurd rfl hemp
        | cons a t => rfl
      constructor
      · rw [execGet]
        simp only [Bool.not_true, Bool.false_eq_true, if_false, hif, hne, hk, hloop]
        by_cases hfmt : format = "jsonl" <;> simp [hfmt, hif, hk]
      · intro _
        rw [execGet]
        simp only [Bool.not_true, Bool.false_eq_true, if_false, hif, hne, hk, hloop]
        by_cases hfmt : format = "jsonl" <;> simp [hfmt, hif, hk]

theorem c6_witness :
    (execGet "jsonl" true none
      [(URLParseOutcome.invalidURL, TransferRun.completes false),
        (URLParseOutcome.ok, TransferRun.completes true)]).exitCode = 0 ∧
    (execGet "jsonl" true none
      [(URLParseOutcome.invalidURL, TransferRun.completes false),
        (URLParseOutcome.ok, TransferRun.completes true)]).outputs =
      some [GetOutput.jsonlErrorEvent "parse" true, GetOutput.transferStarted,
        GetOutput.jsonlFinished 1 1 0] ∧
    (execGet "cli" true (some false)
      [(URLParseOutcome.ok, TransferRun.completes true)]).exitCode = 1 ∧
    (execGet "cli" true none
      [(URLParseOutcome.ok, TransferRun.killsProcess)]).exitCode = 1 := by
  have h := c6_exit_codes "jsonl" true none
    [(URLParseOutcome.invalidURL, TransferRun.completes false),
      (URLParseOutcome.ok, TransferRun.completes true)] (by decide)
  have hfile := c6_exit_codes "cli" true (some false)
    [(URLParseOutcome.ok, TransferRun.completes true)] (by decide)
  have hkill := c6_exit_codes "cli" true none
    [(URLParseOutcome.ok, TransferRun.killsProcess)] (by decide)
  obtain ⟨h40, h41⟩ := h.2.2.2 rfl (by simp) (by decide)
  refine ⟨h40, ?_, hfile.2.1 rfl, hkill.2.2.1 (by decide) rfl (by simp)⟩
  rw [h41 (by decide)]
  decide

/-- C7: the filename sanitizer is idempotent: `sanitize (sanitize s) =
sanitize s` for every string, for any normalization step that is the
identity on ASCII (as the NFD/remove-Mn/NFC chain is). -/
theorem c7_sanitize_idempotent (normalize : List Char → List Char)
    (hnorm : ∀ l : List Char, (∀ c ∈ l, c.toNat < 128) → normalize l = l)
    (s : List Char) :
    SanitizeFilename normalize (SanitizeFilename normalize s) =
      SanitizeFilename normalize s :=
  SanitizeFilename_of_good normalize hnorm _ (SanitizeFilename_good normalize s)

theorem c7_witness :
    SanitizeFilename id (SanitizeFilename id "file___name.txt".toList) =
      SanitizeFilename id "file___name.txt".toList :=
  c7_sanitize_idempotent id (fun _ _ => rfl) "file___name.txt".toList

/-- C8: every sanitizer result uses only the allowed character set, has no
space or dot at either end, contains no `__`, and is `unnamed_file`
whenever the filtered-trimmed-collapsed residue is empty or consists
solely of underscores. -/
theorem c8_sanitize_shape (normalize : List Char → List Char) (s : List Char) :
    (SanitizeFilename normalize s).all isAllowedChar = true ∧
    noEdgeChars isSpaceOrDot (SanitizeFilename normalize s) = true ∧
    containsDoubleUnderscore (SanitizeFilename normalize s) = false ∧
    ((collapseUnderscores (trimBoth isSpaceOrDot
        ((normalize s).map replaceChar))).all isUnderscoreChar = true →
      SanitizeFilename normalize s = unnamedFile) := by
  have hg := SanitizeFilename_good normalize s
  rw [sanitizedGood] at hg
  simp only [Bool.and_eq_true, Bool.not_eq_true'] at hg
  obtain ⟨⟨⟨⟨hall, hedge⟩, hnc⟩, -⟩, -⟩ := hg
  refine ⟨hall, hedge, hnc, ?_⟩
  intro hres
  simp only [SanitizeFilename]
  split
  · rfl
  · rw [if_pos]
    simp only [Bool.or_eq_true, decide_eq_true_eq]
    right
    exact (trimBoth_eq_nil_iff _ _).mpr hres

theorem c8_witness :
    (SanitizeFilename id "file:name*?.txt".toList).all isAllowedChar = true ∧
    noEdgeChars isSpaceOrDot (SanitizeFilename id "file:name*?.txt".toList) = true ∧
    containsDoubleUnderscore (SanitizeFilename id "file:name*?.txt".toList) = false ∧
    SanitizeFilename id "///".toList = unnamedFile :=
  ⟨(c8_sanitize_shape id "file:name*?.txt".toList).1,
    (c8_sanitize_shape id "file:name*?.txt".toList).2.1,
    (c8_sanitize_shape id "file:name*?.txt".toList).2.2.1,
    (c8_sanitize_shape id "///".toList).2.2.2 (by decide)⟩

/-- C9: `parseCTCPRes` is total exactly on texts with at least one field:
with a nonempty field list it returns a value (a parsed response, `nil`
for `VERSION`, or an error), and with an empty field list — which happens
exactly for empty or all-white-space input — the indexing `fields[0]`
panics (`none` in the embedding). -/
theorem c9_parse_ctcp_totality (text : List Char) :
    (fields text = [] → parseCTCPRes text = none) ∧
    (fields text ≠ [] → (parseCTCPRes text).isSome = true) ∧
    (fields text = [] ↔ text.all isSpaceChar = true) := by
  refine ⟨?_, parseCTCPRes_isSome text, fields_eq_nil_iff text⟩
  intro h
  rw [parseCTCPRes, h]

theorem c9_witness :
    parseCTCPRes ['\t'] = none ∧
    (parseCTCPRes "VERSION x".toList).isSome = true ∧
    (fields [' '] = [] ↔ [' '].all isSpaceChar = true) :=
  ⟨(c9_parse_ctcp_totality ['\t']).1 (by decide),
    (c9_parse_ctcp_totality "VERSION x".toList).2.1 (by decide),
    (c9_parse_ctcp_totality [' ']).2.2⟩

/-- C10: `XdccSendRes.Parse` errors exactly when the argument count is not
4 or one of the second, third and fourth arguments fails signed decimal
parsing; in particular the arguments `f 0 -1 -5` parse successfully into
an offer with port `-1` and file size `-5`. -/
theorem c10_parse_error_iff (args : List (List Char)) :
    ((xdccSendResParse args).isOk = false ↔
      args.length ≠ XdccSendResArgs ∨
        ((args.drop 1).all fun a => (goAtoi a).isOk) = false) ∧
    xdccSendResParse [['f'], ['0'], ['-', '1'], ['-', '5']] =
      .ok ⟨['f'], ⟨0, 0, 0, 0⟩, -1, -5⟩ := by
  refine ⟨?_, by decide⟩
  rcases args with - | ⟨a0, args⟩
  · simp [xdccSendResParse, XdccSendResArgs, Except.isOk, Except.toBool]
  rcases args with - | ⟨a1, args⟩
  · simp [xdccSendResParse, XdccSendResArgs, Except.isOk, Except.toBool]
  rcases args with - | ⟨a2, args⟩
  · simp [xdccSendResParse, XdccSendResArgs, Except.isOk, Except.toBool]
  rcases args with - | ⟨a3, args⟩
  · simp [xdccSendResParse, XdccSendResArgs, Except.isOk, Except.toBool]
  rcases args with - | ⟨a4, args⟩
  · rw [xdccSendResParse, if_neg (by simp [XdccSendResArgs])]
    cases h1 : goAtoi a1 <;> cases h2 : goAtoi a2 <;> cases h3 : goAtoi a3 <;>
      simp [h1, h2, h3, XdccSendResArgs, Except.isOk, Except.toBool]
  · have hlen : (a0 :: a1 :: a2 :: a3 :: a4 :: args).length ≠ XdccSendResArgs := by
      simp only [List.length_cons, XdccSendResArgs]
      omega
    rw [xdccSendResParse.eq_def, if_pos hlen]
    exact ⟨fun _ => Or.inl hlen, fun _ => rfl⟩

theorem c3_witness :
    (retryStart (fun _ => false)).1 =
      [⟨⟨true, false⟩, 0⟩, ⟨⟨true, true⟩, 0⟩, ⟨⟨false, false⟩, 0⟩] ∧
    newTransferAttempts true (fun _ => false) = [⟨⟨true, false⟩, 0⟩] := by
  have h := c3_fallback_ladder (fun _ => false)
  refine ⟨?_, h.2.2⟩
  rw [h.1]
  decide

theorem c10_witness :
    ((xdccSendResParse [['a'], ['b']]).isOk = false ↔
      ([['a'], ['b']] : List (List Char)).length ≠ XdccSendResArgs ∨
        ((([['a'], ['b']] : List (List Char)).drop 1).all fun a => (goAtoi a).isOk) = false) ∧
    xdccSendResParse [['f'], ['0'], ['-', '1'], ['-', '5']] =
      .ok ⟨['f'], ⟨0, 0, 0, 0⟩, -1, -5⟩ :=
  c10_parse_error_iff [['a'], ['b']]

end XdccCli
